import Mathlib

/-!
Verification of the extraction-and-rewrite engine of a batch i18n processor
(`batch-i18n-processor.js`).  The JavaScript source is shallowly embedded:
strings are modelled as `List Char`, the regex-based scanners and classifiers
are modelled as executable character-level functions that reproduce the exact
semantics of the regexes used in the source, and the process-wide key registry
(`globalI18nMap`, a JavaScript object) is modelled as an insertion-ordered
association list with update-in-place assignment.

Notes on regex modelling:
* Every regex in the source is built either from a fixed pattern or from
  `escapeRegExp`-escaped literal text; the latter are modelled directly as
  literal substring searches (which is exactly what an escaped pattern is).
* JavaScript `String.prototype.replace` has special `$`-escape sequences in
  string replacements; in every replacement string this program builds, a `$`
  is always immediately followed by `t` (as in `$t('...')`), which JavaScript
  treats literally, so replacement is modelled as literal splicing.
* In JavaScript (unlike Perl), `$` without the `m` flag matches only at the
  very end of the string, and `\w` / `\b` are ASCII-only; both are modelled
  accordingly.
-/

namespace I18n

abbrev LChar := List Char

/-- The characters `"`, `'` and the backtick, used pervasively by the
scanners (written via code points to keep the development uniform). -/
def dqChar : Char := Char.ofNat 34

def sqChar : Char := Char.ofNat 39

def btChar : Char := Char.ofNat 96

/-- ASCII word characters, the JavaScript regex class `\w` (no `u` flag). -/
def isWordChar (c : Char) : Bool :=
  (('a' ≤ c && c ≤ 'z') || ('A' ≤ c && c ≤ 'Z') || ('0' ≤ c && c ≤ '9') || c = '_')

/-- The JavaScript regex class `[\w-]` used for attribute names. -/
def isWordDash (c : Char) : Bool := isWordChar c || c = '-'

/-- JavaScript whitespace (`\s`), restricted to its ASCII members, which are
the only whitespace characters that occur in the buffers of interest. -/
def isJsWS (c : Char) : Bool :=
  c = ' ' || c = '\t' || c = '\n' || c = '\r' || c = Char.ofNat 11 || c = Char.ofNat 12

/-- A character of the target script: the regex class `[一-龥]` used
throughout the source to recognise Chinese text. -/
def isChineseChar (c : Char) : Bool := 0x4e00 ≤ c.toNat && c.toNat ≤ 0x9fa5

/-- `/[一-龥]/.test(text)` -/
def hasChinese (t : LChar) : Bool := t.any isChineseChar

/-- `text.trim()` (ASCII whitespace suffices for the buffers at hand). -/
def jsTrim (t : LChar) : LChar :=
  (((t.dropWhile isJsWS).reverse).dropWhile isJsWS).reverse

/-- Does `s` occur as a prefix of `t`? (Plain structural definition.) -/
def leadsWith : LChar → LChar → Bool
  | [], _ => true
  | _ :: _, [] => false
  | a :: s, b :: t => a = b && leadsWith s t

/-- Does `s` occur as a substring of `t`?  Mirrors `text.includes(s)`. -/
def hasSub : LChar → LChar → Bool
  | t, s =>
    leadsWith s t ||
      match t with
      | [] => false
      | _ :: r => hasSub r s

/-- Index of the leftmost occurrence of `s` in `t`, starting the count at
`k`; `none` when there is no occurrence.  Mirrors `text.indexOf(s)` (with
`k = 0`): the empty needle is found at index 0. -/
def firstIdxFrom : LChar → LChar → Nat → Option Nat
  | t, s, k =>
    if leadsWith s t then some k
    else
      match t with
      | [] => none
      | _ :: r => firstIdxFrom r s (k + 1)

def firstIdx (t s : LChar) : Option Nat := firstIdxFrom t s 0

/-- `replaceFirst(text, search, replacement)` from the source: replace only
the first occurrence, via `indexOf` and two `substring` calls. -/
def replaceFirst (text search replacement : LChar) : LChar :=
  match firstIdx text search with
  | none => text
  | some i => text.take i ++ replacement ++ text.drop (i + search.length)

/-- All match indices of the non-empty literal `s` in `t`, in increasing
order and non-overlapping, exactly as successive `regex.exec` calls with the
`g` flag report them for an `escapeRegExp`-escaped literal. -/
def allOcc (t s : LChar) : List Nat :=
  ((List.range t.length).foldl
    (fun st i =>
      if st.2 ≤ i && leadsWith s (t.drop i) then (st.1 ++ [i], i + s.length) else st)
    (([] : List Nat), 0)).1

/-- Global literal replacement: `text.replace(new RegExp(escapeRegExp(s),'g'), r)`.
Indices refer to the original string, so splicing from the right is sound. -/
def replaceAllSub (t s r : LChar) : LChar :=
  (allOcc t s).foldr (fun i cur => cur.take i ++ r ++ cur.drop (i + s.length)) t

/-- The process-wide key registry `globalI18nMap`: a JavaScript object
modelled as an insertion-ordered association list. -/
abbrev KeyMap := List (LChar × LChar)

/-- `globalI18nMap[key] = value`: update in place when the key is present
(JavaScript keeps the original insertion position), append otherwise. -/
def setKV : KeyMap → LChar → LChar → KeyMap
  | [], k, v => [(k, v)]
  | (k', v') :: m, k, v =>
    if k' = k then (k, v) :: m else (k', v') :: setKV m k v

/-- Lookup in the registry. -/
def getKV : KeyMap → LChar → Option LChar
  | [], _ => none
  | (k', v') :: m, k => if k' = k then some v' else getKV m k

/-! ### Occurrence predicate and basic lemmas -/

/-- `s` occurs in `t` at index `i`. -/
def occursAt (t s : LChar) (i : Nat) : Prop := leadsWith s (t.drop i) = true

instance occursAtDecidable (t s : LChar) (i : Nat) : Decidable (occursAt t s i) := by
  unfold occursAt
  infer_instance

theorem firstIdxFrom_none {t s : LChar} {k : Nat}
    (h : firstIdxFrom t s k = none) : ∀ j, ¬ occursAt t s j := by
  induction t generalizing k with
  | nil =>
    intro j hj
    rw [firstIdxFrom] at h
    by_cases hl : leadsWith s [] = true
    · simp [hl] at h
    · unfold occursAt at hj
      simp at hj
      exact hl (by simpa using hj)
  | cons a r ih =>
    intro j hj
    rw [firstIdxFrom] at h
    by_cases hl : leadsWith s (a :: r) = true
    · simp [hl] at h
    · simp [hl] at h
      cases j with
      | zero =>
        unfold occursAt at hj
        simp at hj
        exact hl hj
      | succ j' =>
        exact ih h j' (by
          unfold occursAt at hj ⊢
          simpa using hj)

theorem firstIdxFrom_some {t s : LChar} {k m : Nat}
    (h : firstIdxFrom t s k = some m) :
    k ≤ m ∧ occursAt t s (m - k) ∧ ∀ j, j < m - k → ¬ occursAt t s j := by
  induction t generalizing k with
  | nil =>
    rw [firstIdxFrom] at h
    by_cases hl : leadsWith s [] = true
    · simp [hl] at h
      subst h
      refine ⟨le_refl _, ?_, ?_⟩
      · unfold occursAt; simpa using hl
      · intro j hj; omega
    · simp [hl] at h
  | cons a r ih =>
    rw [firstIdxFrom] at h
    by_cases hl : leadsWith s (a :: r) = true
    · simp [hl] at h
      subst h
      refine ⟨le_refl _, ?_, ?_⟩
      · unfold occursAt; simpa using hl
      · intro j hj; omega
    · simp [hl] at h
      obtain ⟨hk, hocc, hmin⟩ := ih h
      refine ⟨by omega, ?_, ?_⟩
      · unfold occursAt at hocc ⊢
        have : m - k = (m - (k + 1)) + 1 := by omega
        rw [this]
        simpa using hocc
      · intro j hj
        cases j with
        | zero =>
          intro hc
          unfold occursAt at hc
          simp at hc
          exact hl hc
        | succ j' =>
          intro hc
          refine hmin j' (by omega) ?_
          unfold occursAt at hc ⊢
          simpa using hc

/-! ### Text Normalizer: `removeComments`

The source applies four global regex replacements in sequence:
`//.*$` (per line, `m` flag), `/\*[\s\S]*?\*\//`, `<!--[\s\S]*?-->`, and
`^[ \t]*#.*$` (per line, `m` flag), each replaced by the empty string. -/

/-- One pass of `text.replace(/\/\/.*$/gm, '')`: inside each line, drop
everything from the first `//` onwards (the newline itself is kept, since
`.` does not match line terminators). -/
def remLineF : Nat → LChar → LChar
  | 0, t => t
  | _ + 1, [] => []
  | f + 1, c :: r =>
    if c = '/' && r.head? = some '/' then
      remLineF f ((c :: r).dropWhile (fun x => !(x = '\n')))
    else c :: remLineF f r

/-- Remainder after the first `*/`, if any (the lazy `[\s\S]*?` stops at the
first closing delimiter). -/
def findCloseBlock : LChar → Option LChar
  | '*' :: '/' :: r => some r
  | _ :: r => findCloseBlock r
  | [] => none

/-- `text.replace(/\/\*[\s\S]*?\*\//g, '')`: each `/*` paired with the first
following `*/` is removed (newlines included); an unclosed `/*` matches
nothing and the rest of the text is kept verbatim. -/
def remBlockF : Nat → LChar → LChar
  | 0, t => t
  | _ + 1, [] => []
  | f + 1, c :: r =>
    if c = '/' && r.head? = some '*' then
      match findCloseBlock r.tail with
      | some rest => remBlockF f rest
      | none => c :: r
    else c :: remBlockF f r

/-- Remainder after the first `-->`, if any. -/
def findCloseHtml : LChar → Option LChar
  | '-' :: '-' :: '>' :: r => some r
  | _ :: r => findCloseHtml r
  | [] => none

/-- `text.replace(/<!--[\s\S]*?-->/g, '')`. -/
def remHtmlF : Nat → LChar → LChar
  | 0, t => t
  | _ + 1, [] => []
  | f + 1, c :: r =>
    if leadsWith "<!--".data (c :: r) then
      match findCloseHtml ((c :: r).drop 4) with
      | some rest => remHtmlF f rest
      | none => c :: r
    else c :: remHtmlF f r

/-- A line matched by `^[ \t]*#`: its first character other than space or
tab is `#`. -/
def isHashLine (line : LChar) : Bool :=
  (line.dropWhile (fun c => c = ' ' || c = '\t')).head? = some '#'

/-- `text.replace(/^[ \t]*#.*$/gm, '')`: the content of every hash line is
removed; the line terminator is kept.  (When the remainder after the line
is non-empty its head is necessarily the newline the line stopped at.) -/
def remHashF : Nat → LChar → LChar
  | 0, t => t
  | f + 1, t =>
    match t with
    | [] => []
    | _ :: _ =>
      let line := t.takeWhile (fun c => !(c = '\n'))
      let rest := t.dropWhile (fun c => !(c = '\n'))
      let kept := if isHashLine line then [] else line
      match rest with
      | [] => kept
      | _ :: r2 => kept ++ '\n' :: remHashF f r2

/-- `removeComments(text)` from the source: the four passes in order. -/
def removeComments (t : LChar) : LChar :=
  let r1 := remLineF t.length t
  let r2 := remBlockF r1.length r1
  let r3 := remHtmlF r2.length r2
  remHashF r3.length r3

/-- Number of lines of a text (one more than the number of newlines), the
measure of line structure. -/
def lineCount (t : LChar) : Nat := t.count '\n' + 1

/-- `generateI18nKey(text)`: the key is the text itself. -/
def generateI18nKey (t : LChar) : LChar := t

/-! ### Context classifiers -/

/-- `/\?.*:/`: a `?` followed by a `:` later on the same line. -/
def ternaryTest (t : LChar) : Bool :=
  (List.range t.length).any (fun i =>
    t.getD i ' ' = '?' &&
      (let rest := t.drop (i + 1)
       let seg := rest.takeWhile (fun c => !(c = ':'))
       decide (seg.length < rest.length) && !seg.any (fun c => c = '\n')))

/-- `containsJSExpression(text)` from the source.  The last pattern,
`/['"][^'"]*['"]/`, holds exactly when the text has at least two quote
characters (two adjacent ones always have no quote between them). -/
def containsJSExpression (t : LChar) : Bool :=
  ternaryTest t || hasSub t "===".data || hasSub t "!==".data ||
    hasSub t "!=".data || hasSub t "<=".data || hasSub t ">=".data ||
    hasSub t "&&".data || hasSub t "||".data ||
    decide (2 ≤ t.countP (fun c => c = sqChar || c = dqChar))

def jsKeywords : List LChar :=
  ["function", "const", "let", "var", "if", "else", "for", "while",
   "return", "await", "async", "import", "export"].map String.data

/-- `/\b(function|const|...)\b/`: a keyword occurrence delimited by
non-word characters (ASCII `\w`; in particular CJK neighbours count as
boundaries). -/
def keywordTest (t : LChar) : Bool :=
  (List.range t.length).any (fun i =>
    jsKeywords.any (fun kw =>
      leadsWith kw (t.drop i) &&
        (decide (i = 0) || !isWordChar (t.getD (i - 1) ' ')) &&
        (match (t.drop (i + kw.length)).head? with
         | none => true
         | some c => !isWordChar c)))

/-- `/\w+\s*\(\s*\)/`: a word character, optional whitespace, `(`,
optional whitespace, `)` (the single final character of the `\w+` run
suffices for the existence of a match). -/
def wordParenEmptyTest (t : LChar) : Bool :=
  (List.range t.length).any (fun i =>
    isWordChar (t.getD i ' ') &&
      (let r1 := (t.drop (i + 1)).dropWhile isJsWS
       r1.head? = some '(' && ((r1.drop 1).dropWhile isJsWS).head? = some ')'))

/-- `/^\s*\w+\s*\(/`: leading whitespace, a full word run, optional
whitespace, `(`; anchored at the start of the string. -/
def lineStartCallTest (t : LChar) : Bool :=
  let r := t.dropWhile isJsWS
  let w := r.takeWhile isWordChar
  !w.isEmpty && ((r.drop w.length).dropWhile isJsWS).head? = some '('

/-- `/\w+\s*=\s*[^=]/`: an `=` preceded (through whitespace) by a word
character and followed directly by a character other than `=` (whitespace
itself satisfies `[^=]`). -/
def assignTest (t : LChar) : Bool :=
  (List.range t.length).any (fun k =>
    t.getD k ' ' = '=' &&
      (match ((t.take k).reverse.dropWhile isJsWS).head? with
       | some c => isWordChar c
       | none => false) &&
      (match (t.drop (k + 1)).head? with
       | some c => !(c = '=')
       | none => false))

/-- `/\w+\.\w+\s*\(/`. -/
def methodCallTest (t : LChar) : Bool :=
  (List.range t.length).any (fun i =>
    isWordChar (t.getD i ' ') && t.getD (i + 1) ' ' = '.' &&
      (let r := t.drop (i + 2)
       let w := r.takeWhile isWordChar
       !w.isEmpty && ((r.drop w.length).dropWhile isJsWS).head? = some '('))

/-- The benign-label allowlist class
`[一-龥a-zA-Z0-9\s()（）\[\]【】℃°%]` of `isCodeLike`. -/
def allowlistChar (c : Char) : Bool :=
  isChineseChar c || ('a' ≤ c && c ≤ 'z') || ('A' ≤ c && c ≤ 'Z') ||
    ('0' ≤ c && c ≤ '9') || isJsWS c || c = '(' || c = ')' ||
    c = '（' || c = '）' || c = '[' || c = ']' || c = '【' || c = '】' ||
    c = '℃' || c = '°' || c = '%'

/-- `/\w+\s*\(/`. -/
def wordParenTest (t : LChar) : Bool :=
  (List.range t.length).any (fun i =>
    isWordChar (t.getD i ' ') &&
      ((t.drop (i + 1)).dropWhile isJsWS).head? = some '(')

/-- `isCodeLike(text)` from the source: the allowlist branch is checked
first; otherwise any of the code-signature patterns fires.  `;$` without
the `m` flag matches only at the very end of the string in JavaScript. -/
def isCodeLike (t : LChar) : Bool :=
  if !t.isEmpty && t.all allowlistChar then
    wordParenTest t && !hasChinese (t.takeWhile (fun c => !(c = '(')))
  else
    keywordTest t ||
      t.any (fun c => c = Char.ofNat 123 || c = Char.ofNat 125) ||
      t.reverse.head? = some ';' || hasSub t "=>".data ||
      wordParenEmptyTest t || lineStartCallTest t || assignTest t ||
      methodCallTest t || hasSub t "ElMessage.".data || hasSub t "console.".data

def fileExts : List LChar :=
  ["png", "jpg", "jpeg", "gif", "svg", "webp", "bmp", "ico", "mp4", "mp3",
   "wav", "pdf", "doc", "docx", "xls", "xlsx", "zip", "rar", "ttf", "woff",
   "woff2", "eot", "otf", "css", "scss", "less", "json", "xml", "txt",
   "md"].map String.data

def endsWithL (t s : LChar) : Bool := leadsWith s.reverse t.reverse

/-- The extension pattern `/\.(png|jpg|...)$/i`. -/
def extTest (t : LChar) : Bool :=
  fileExts.any (fun e => endsWithL (t.map Char.toLower) ('.' :: e))

/-- `/\.\w{2,4}$/`: the maximal trailing word run has length 2 to 4 and is
preceded by a dot. -/
def hasFileExtensionTest (t : LChar) : Bool :=
  let run := t.reverse.takeWhile isWordChar
  decide (2 ≤ run.length) && decide (run.length ≤ 4) &&
    t.reverse.getD run.length ' ' = '.'

/-- `isFilePath(text)` from the source. -/
def isFilePath (t : LChar) : Bool :=
  let hasSep := t.any (fun c => c = '/' || c = '\\')
  if hasSep && hasFileExtensionTest t then true
  else
    leadsWith "./".data t || leadsWith "../".data t ||
      leadsWith "@/".data t || leadsWith "~/".data t ||
      (t.head? = some '/' &&
        (match (t.drop 1).head? with
         | some c => !(c = '/')
         | none => false)) ||
      extTest t

/-! ### `isInDefineProps` -/

structure DPState where
  inString : Bool
  stringChar : Char
  openParens : Int
  prev : Char
  decided : Option Bool

/-- One step of the character loop of `isInDefineProps`: string-state
tracking, parenthesis counting outside strings, and the early exit when the
parentheses close after the `defineProps(` itself (`i > 11`). -/
def dpStep (st : DPState) (i : Nat) (c : Char) : DPState :=
  match st.decided with
  | some _ => st
  | none =>
    let st1 :=
      if (c = dqChar || c = sqChar || c = btChar) && !(st.prev = '\\') then
        if !st.inString then { st with inString := true, stringChar := c }
        else if c = st.stringChar then { st with inString := false, stringChar := ' ' }
        else st
      else st
    let st2 :=
      if !st1.inString then
        let p1 := if c = '(' then st1.openParens + 1 else st1.openParens
        let p2 := if c = ')' then p1 - 1 else p1
        let st' := { st1 with openParens := p2 }
        if p2 = 0 && decide (11 < i) then { st' with decided := some false } else st'
      else st1
    { st2 with prev := c }

/-- `text.lastIndexOf(s)` (for the non-empty needles used here). -/
def lastIdxOf (t s : LChar) : Option Nat :=
  (List.range (t.length + 1)).foldl
    (fun acc i => if leadsWith s (t.drop i) then some i else acc) none

/-- `isInDefineProps(text, textPosition)` from the source. -/
def isInDefineProps (text : LChar) (pos : Nat) : Bool :=
  match lastIdxOf (text.take pos) "defineProps(".data with
  | none => false
  | some idx =>
    let between := (text.drop idx).take (pos - idx)
    let stF := between.enum.foldl (fun st p => dpStep st p.1 p.2)
      ⟨false, ' ', 0, ' ', none⟩
    match stF.decided with
    | some b => b
    | none => decide (0 < stF.openParens)

/-! ### `isAlreadyInternationalized` -/

/-- `/\$t\s*\(/`. -/
def dollarTParen (t : LChar) : Bool :=
  (List.range t.length).any (fun i =>
    t.getD i ' ' = '$' && t.getD (i + 1) ' ' = 't' &&
      ((t.drop (i + 2)).dropWhile isJsWS).head? = some '(')

/-- `/\bt\s*\(/`. -/
def btParenTest (t : LChar) : Bool :=
  (List.range t.length).any (fun i =>
    t.getD i ' ' = 't' && (decide (i = 0) || !isWordChar (t.getD (i - 1) ' ')) &&
      ((t.drop (i + 1)).dropWhile isJsWS).head? = some '(')

/-- `/i18n\.t\s*\(/`. -/
def i18nDotTTest (t : LChar) : Bool :=
  (List.range t.length).any (fun i =>
    leadsWith "i18n.t".data (t.drop i) &&
      ((t.drop (i + 6)).dropWhile isJsWS).head? = some '(')

/-- `/i18n\.global\.t\s*\(/`. -/
def i18nGlobalTTest (t : LChar) : Bool :=
  (List.range t.length).any (fun i =>
    leadsWith "i18n.global.t".data (t.drop i) &&
      ((t.drop (i + 13)).dropWhile isJsWS).head? = some '(')

def skipWsR (l : LChar) : LChar := l.dropWhile isJsWS

/-- On the reversed window: consume the end-anchored `\(\s*$` tail common to
all six `directI18nPatterns`, returning the reversed remainder before the
whitespace preceding the parenthesis. -/
def afterParenRev (rev : LChar) : Option LChar :=
  match skipWsR rev with
  | '(' :: l2 => some (skipWsR l2)
  | _ => none

/-- `/\$t\s*\(\s*$/` (after `afterParenRev`). -/
def dirDollarT (l3 : LChar) : Bool :=
  match l3 with
  | 't' :: '$' :: _ => true
  | _ => false

/-- `/\bt\s*\(\s*$/`. -/
def dirBoundaryT (l3 : LChar) : Bool :=
  match l3 with
  | 't' :: rest =>
    (match rest.head? with
     | none => true
     | some c => !isWordChar c)
  | _ => false

/-- `/i18n\.t\s*\(\s*$/`. -/
def dirI18nT (l3 : LChar) : Bool := leadsWith "i18n.t".data.reverse l3

/-- `/i18n\.global\.t\s*\(\s*$/`. -/
def dirI18nGlobalT (l3 : LChar) : Bool := leadsWith "i18n.global.t".data.reverse l3

/-- The pattern `\{\{\s*\$t\s*\(\s*$`. -/
def dirInterpDollarT (l3 : LChar) : Bool :=
  match l3 with
  | 't' :: '$' :: l4 =>
    (match skipWsR l4 with
     | c1 :: c2 :: _ => c1 = Char.ofNat 123 && c2 = Char.ofNat 123
     | _ => false)
  | _ => false

/-- The bound-attribute pattern, a colon, an attribute name, `=`, an
optional double quote or backtick, then `\$t\s*\(\s*$` (all with optional
whitespace between the pieces). -/
def dirBoundAttrDollarT (l3 : LChar) : Bool :=
  match l3 with
  | 't' :: '$' :: l4 =>
    let l5 := skipWsR l4
    let l6 := match l5 with
      | c :: r => if c = dqChar || c = btChar then r else l5
      | [] => l5
    (match skipWsR l6 with
     | '=' :: l8 =>
       let l9 := skipWsR l8
       let run := l9.takeWhile isWordDash
       !run.isEmpty && l9.getD run.length ' ' = ':'
     | _ => false)
  | _ => false

/-- The disjunction of the six `directI18nPatterns`, applied (end-anchored)
to the window of at most 25 characters before a quoted occurrence. -/
def directI18nTest (beforeQuote : LChar) : Bool :=
  match afterParenRev beforeQuote.reverse with
  | none => false
  | some l3 =>
    dirDollarT l3 || dirBoundaryT l3 || dirI18nT l3 || dirI18nGlobalT l3 ||
      dirInterpDollarT l3 || dirBoundAttrDollarT l3

/-- `isAlreadyInternationalized(text, surroundingText, offsetInSurrounding)`
from the source; `off = none` models the default offset `-1` (scan every
occurrence of `'text'` in the surrounding window). -/
def isAlreadyInternationalized (text surrounding : LChar) (off : Option Nat) : Bool :=
  if dollarTParen text || btParenTest text || i18nDotTTest text || i18nGlobalTTest text then
    true
  else if surrounding.isEmpty then false
  else
    match off with
    | some textIndex => directI18nTest ((surrounding.take textIndex).drop (textIndex - 25))
    | none =>
      let quoted := sqChar :: text ++ [sqChar]
      (List.range (surrounding.length + 1)).any (fun i =>
        leadsWith quoted (surrounding.drop i) &&
          directI18nTest ((surrounding.take i).drop (i - 25)))

/-! ### Term extraction: `extractChineseTerms` -/

inductive Ctx
  | template
  | script
  deriving DecidableEq

inductive TermType
  | doubleQuote
  | i18nField
  | singleQuote
  | template
  | tagContent
  | buttonText
  deriving DecidableEq

/-- A candidate term as pushed by `extractChineseTerms`: the matched span,
the trimmed content, the kind tag, and (for `button-text` only) the tag
name and raw attribute text. -/
structure CTerm where
  original : LChar
  content : LChar
  ttype : TermType
  tagName : LChar
  attrs : LChar
  deriving DecidableEq

/-- Successive matches of `/q([^q]*)q/g` for a quote character `q`: the
quote characters pair up left to right; an unmatched trailing opener yields
no match.  Returns `(index of the opening quote, inner text)`. -/
def scanQuoted (q : Char) (t : LChar) : List (Nat × LChar) :=
  ((List.range t.length).foldl
    (fun st i =>
      if t.getD i ' ' = q then
        match st.2 with
        | none => (st.1, some i)
        | some o => (st.1 ++ [(o, (t.drop (o + 1)).take (i - o - 1))], none)
      else st)
    (([] : List (Nat × LChar)), (none : Option Nat))).1

/-- `text.substring(a, b)` (with the clamping `substring` performs). -/
def windowOf (t : LChar) (a b : Nat) : LChar := (t.drop a).take (b - a)

def startsEndsWith (c : Char) (t : LChar) : Bool :=
  t.head? = some c && t.reverse.head? = some c

/-- The filter applied to each double-quote match (the body of the first
`while` loop of `extractChineseTerms`). -/
def dqTermOf (text : LChar) (ctx : Ctx) (m : Nat × LChar) : Option CTerm :=
  let content := jsTrim m.2
  if startsEndsWith sqChar content then none
  else if containsJSExpression content then none
  else if ctx = Ctx.script && isInDefineProps text m.1 then none
  else
    let surrounding := windowOf text (m.1 - 100) (m.1 + (m.2.length + 2) + 100)
    if !content.isEmpty && hasChinese content && !isCodeLike content &&
        !isFilePath content &&
        !isAlreadyInternationalized content surrounding none then
      some ⟨dqChar :: m.2 ++ [dqChar], content, TermType.doubleQuote, [], []⟩
    else none

/-- A match of `/i18n:\s*'([^']+)'/` at the head of `l`: returns the match
length and the inner text. -/
def parseI18nField (l : LChar) : Option (Nat × LChar) :=
  if leadsWith "i18n:".data l then
    let r1 := l.drop 5
    let ws := r1.takeWhile isJsWS
    match r1.drop ws.length with
    | c :: r3 =>
      if c = sqChar then
        let inner := r3.takeWhile (fun x => !(x = sqChar))
        if !inner.isEmpty && r3.getD inner.length ' ' = sqChar then
          some (5 + ws.length + 1 + inner.length + 1, inner)
        else none
      else none
    | [] => none
  else none

/-- Successive matches of `/i18n:\s*'([^']+)'/g`:
`(index, match length, inner text)`. -/
def scanI18nField (t : LChar) : List (Nat × Nat × LChar) :=
  ((List.range t.length).foldl
    (fun st i =>
      if st.2 ≤ i then
        match parseI18nField (t.drop i) with
        | some (len, inner) => (st.1 ++ [(i, len, inner)], i + len)
        | none => st
      else st)
    (([] : List (Nat × Nat × LChar)), 0)).1

/-- The filter applied to each `i18n:` field match. -/
def fieldTermOf (text : LChar) (ctx : Ctx) (m : Nat × Nat × LChar) : Option CTerm :=
  let content := jsTrim m.2.2
  if ctx = Ctx.script && isInDefineProps text m.1 then none
  else if !content.isEmpty && hasChinese content && !isCodeLike content &&
      !isFilePath content then
    some ⟨(text.drop m.1).take m.2.1, content, TermType.i18nField, [], []⟩
  else none

/-- The filter applied to each single-quote match; `fieldContents` are the
contents of the `i18n:` field terms already collected. -/
def sqTermOf (text : LChar) (ctx : Ctx) (fieldContents : List LChar)
    (m : Nat × LChar) : Option CTerm :=
  let content := jsTrim m.2
  if fieldContents.any (fun c => c = content) then none
  else if startsEndsWith dqChar content then none
  else if ctx = Ctx.script && isInDefineProps text m.1 then none
  else
    let startPos := m.1 - 100
    let surrounding := windowOf text startPos (m.1 + (m.2.length + 2) + 100)
    if !content.isEmpty && hasChinese content && !isCodeLike content &&
        !isFilePath content &&
        !isAlreadyInternationalized content surrounding (some (m.1 - startPos)) then
      some ⟨sqChar :: m.2 ++ [sqChar], content, TermType.singleQuote, [], []⟩
    else none

/-- The filter applied to each backtick template-string match (note: no
`isCodeLike` check, and the already-internationalized check receives the
whole match rather than the content, with a 50-character window). -/
def tplTermOf (text : LChar) (ctx : Ctx) (m : Nat × LChar) : Option CTerm :=
  let content := jsTrim m.2
  let original := btChar :: m.2 ++ [btChar]
  if ctx = Ctx.script && isInDefineProps text m.1 then none
  else
    let surrounding := windowOf text (m.1 - 50) (m.1 + (m.2.length + 2) + 50)
    if !content.isEmpty && hasChinese content && !isFilePath content &&
        !isAlreadyInternationalized original surrounding none then
      some ⟨original, content, TermType.template, [], []⟩
    else none

/-- Successive matches of `/>([^<>]*?)</gs`: at a `>`, the shortest run of
characters containing neither `<` nor `>` that is closed by a `<`. -/
def scanTagContent (t : LChar) : List (Nat × LChar) :=
  ((List.range t.length).foldl
    (fun st i =>
      if st.2 ≤ i && t.getD i ' ' = '>' then
        let run := (t.drop (i + 1)).takeWhile (fun c => !(c = '<') && !(c = '>'))
        if (t.drop (i + 1)).getD run.length ' ' = '<' then
          (st.1 ++ [(i, run)], i + 1 + run.length + 1)
        else st
      else st)
    (([] : List (Nat × LChar)), 0)).1

/-- The filter applied to each tag-content match (`template` context only). -/
def tagTermOf (text : LChar) (m : Nat × LChar) : Option CTerm :=
  let content := jsTrim m.2
  let original := '>' :: m.2 ++ ['<']
  if !content.isEmpty && hasChinese content &&
      !content.any (fun c => c = dqChar) && !content.any (fun c => c = sqChar) &&
      !hasSub content [Char.ofNat 123, Char.ofNat 123] &&
      !hasSub content [Char.ofNat 125, Char.ofNat 125] &&
      !isCodeLike content && !isFilePath content then
    let surrounding := windowOf text (m.1 - 50) (m.1 + (m.2.length + 2) + 50)
    if !isAlreadyInternationalized original surrounding none then
      some ⟨original, content, TermType.tagContent, [], []⟩
    else none
  else none

def buttonTags : List LChar :=
  ["el-button", "el-radio-button", "button", "a"].map String.data

/-- An opening `<tag attrs>` at index `i` for one of the button-like tags
(the alternatives are mutually exclusive as prefixes): returns the tag
name, the raw attribute text and the index just after the `>`. -/
def openTagAt (t : LChar) (i : Nat) : Option (LChar × LChar × Nat) :=
  if t.getD i ' ' = '<' then
    match buttonTags.filter (fun tag => leadsWith tag (t.drop (i + 1))) with
    | tag :: _ =>
      let attrs := (t.drop (i + 1 + tag.length)).takeWhile (fun c => !(c = '>'))
      let gtPos := i + 1 + tag.length + attrs.length
      if t.getD gtPos ' ' = '>' && decide (gtPos < t.length) then
        some (tag, attrs, gtPos + 1)
      else none
    | [] => none
  else none

/-- A closing `</tag>` at index `k` for one of the button-like tags:
returns the length of the closing tag. -/
def closeTagAt (t : LChar) (k : Nat) : Option Nat :=
  if t.getD k ' ' = '<' && t.getD (k + 1) ' ' = '/' then
    match buttonTags.filter (fun tag =>
        leadsWith tag (t.drop (k + 2)) && t.getD (k + 2 + tag.length) ' ' = '>') with
    | tag :: _ => some (2 + tag.length + 1)
    | [] => none
  else none

/-- The first closing tag at or after `start` (the lazy `[\s\S]*?` body
stops at the earliest closing tag). -/
def findCloseTag (t : LChar) (start : Nat) : Option (Nat × Nat) :=
  match (List.range t.length).find? (fun k => start ≤ k && (closeTagAt t k).isSome) with
  | some k =>
    match closeTagAt t k with
    | some len => some (k, len)
    | none => none
  | none => none

/-- Successive matches of the button-text regex
`/<(el-button|el-radio-button|button|a)([^>]*)>([\s\S]*?)<\/(el-button|el-radio-button|button|a)>/g`:
`(index, tag name, attrs, body, index after the match)`. -/
def scanButton (t : LChar) : List (Nat × LChar × LChar × LChar × Nat) :=
  ((List.range t.length).foldl
    (fun st i =>
      if st.2 ≤ i then
        match openTagAt t i with
        | some (tag, attrs, bodyStart) =>
          (match findCloseTag t bodyStart with
           | some (k, clen) =>
             (st.1 ++ [(i, tag, attrs, (t.drop bodyStart).take (k - bodyStart), k + clen)],
              k + clen)
           | none => st)
        | none => st
      else st)
    (([] : List (Nat × LChar × LChar × LChar × Nat)), 0)).1

/-- The filter applied to each button-text match (`template` context only). -/
def buttonTermOf (text : LChar) (m : Nat × LChar × LChar × LChar × Nat) : Option CTerm :=
  let content := jsTrim m.2.2.2.1
  let original := (text.drop m.1).take (m.2.2.2.2 - m.1)
  if !content.isEmpty && hasChinese content &&
      !hasSub content [Char.ofNat 123, Char.ofNat 123] &&
      !hasSub content [Char.ofNat 125, Char.ofNat 125] &&
      !isCodeLike content && !isFilePath content then
    let surrounding := windowOf text (m.1 - 50) (m.2.2.2.2 + 50)
    if !isAlreadyInternationalized original surrounding none then
      some ⟨original, content, TermType.buttonText, m.2.1, m.2.2.1⟩
    else none
  else none

/-- `extractChineseTerms(text, context)` from the source: the five scanner
passes in order (double quote, `i18n:` field, single quote, backtick
template, and — in `template` context only — tag content and button text),
each filtered by the classifier battery. -/
def extractChineseTerms (text : LChar) (ctx : Ctx) : List CTerm :=
  let dqTerms := (scanQuoted dqChar text).filterMap (dqTermOf text ctx)
  let fieldTerms := (scanI18nField text).filterMap (fieldTermOf text ctx)
  let sqTerms := (scanQuoted sqChar text).filterMap
    (sqTermOf text ctx (fieldTerms.map CTerm.content))
  let tplTerms := (scanQuoted btChar text).filterMap (tplTermOf text ctx)
  let tagTerms :=
    if ctx = Ctx.template then (scanTagContent text).filterMap (tagTermOf text) else []
  let btnTerms :=
    if ctx = Ctx.template then (scanButton text).filterMap (buttonTermOf text) else []
  dqTerms ++ fieldTerms ++ sqTerms ++ tplTerms ++ tagTerms ++ btnTerms

/-! ### Attribute / interpolation / binding-expression classifiers -/

structure AttrCheck where
  isAttribute : Bool
  needsBinding : Bool
  attrName : LChar
  deriving DecidableEq

/-- A match of `/([\w-]+)\s*=\s*ORIG/` starting at index `i` (the name run
is maximal, as regex backtracking cannot shorten it): returns the captured
attribute name. -/
def basicAttrAt (t orig : LChar) (i : Nat) : Option LChar :=
  let run := (t.drop i).takeWhile isWordDash
  if run.isEmpty then none
  else
    match (t.drop (i + run.length)).dropWhile isJsWS with
    | '=' :: r3 =>
      if leadsWith orig (r3.dropWhile isJsWS) then some run else none
    | _ => none

/-- A match of `/:([\w-]+)\s*=\s*["'][^"']*STRIPPED[^"']*["']/` starting at
index `i`: after the opening quote the quote-free span must contain the
stripped content and be closed by a quote character (of either kind). -/
def vueAttrAt (t stripped : LChar) (i : Nat) : Option LChar :=
  if t.getD i ' ' = ':' then
    let run := (t.drop (i + 1)).takeWhile isWordDash
    if run.isEmpty then none
    else
      match (t.drop (i + 1 + run.length)).dropWhile isJsWS with
      | '=' :: r3 =>
        (match r3.dropWhile isJsWS with
         | q :: r5 =>
           if q = dqChar || q = sqChar then
             let span := r5.takeWhile (fun c => !(c = dqChar) && !(c = sqChar))
             if hasSub span stripped &&
                 (r5.getD span.length ' ' = dqChar || r5.getD span.length ' ' = sqChar) then
               some run
             else none
           else none
         | [] => none)
      | _ => none
  else none

/-- `checkIfInAttribute(templateContent, original)` from the source: the
plain-attribute pattern is tried first (and yields `needsBinding = true`);
only if it finds nothing is the bound-attribute pattern tried. -/
def checkIfInAttribute (t orig : LChar) : AttrCheck :=
  match (List.range t.length).find? (fun i => (basicAttrAt t orig i).isSome) with
  | some i =>
    (match basicAttrAt t orig i with
     | some run => ⟨true, true, run⟩
     | none => ⟨false, false, []⟩)
  | none =>
    let stripped := orig.filter (fun c => !(c = dqChar) && !(c = sqChar))
    match (List.range t.length).find? (fun i => (vueAttrAt t stripped i).isSome) with
    | some i =>
      (match vueAttrAt t stripped i with
       | some run => ⟨true, false, run⟩
       | none => ⟨false, false, []⟩)
    | none => ⟨false, false, []⟩

/-- `isInVueInterpolation(templateContent, textIndex)` from the source. -/
def isInVueInterpolation (t : LChar) (textIndex : Nat) : Bool :=
  let beforeText := t.take textIndex
  match lastIdxOf beforeText [Char.ofNat 123, Char.ofNat 123] with
  | none => false
  | some o =>
    let closeOk :=
      match lastIdxOf beforeText [Char.ofNat 125, Char.ofNat 125] with
      | none => true
      | some cl => decide (cl < o)
    if closeOk then
      !hasSub ((t.drop (o + 2)).take (textIndex - (o + 2)))
        [Char.ofNat 125, Char.ofNat 125]
    else false

/-- The `(:|@|v-)` alternation of the binding-attribute regex. -/
def parseBindingSigil (l : LChar) : Option Nat :=
  match l with
  | ':' :: _ => some 1
  | '@' :: _ => some 1
  | 'v' :: '-' :: _ => some 2
  | _ => none

/-- The core `(:|@|v-)[\w-]+\s*=\s*["']` of the binding-attribute regex
starting at index `p`: returns the index just after the opening quote. -/
def bindingCoreAt (t : LChar) (p : Nat) : Option Nat :=
  match parseBindingSigil (t.drop p) with
  | none => none
  | some slen =>
    let run := (t.drop (p + slen)).takeWhile isWordDash
    if run.isEmpty then none
    else
      let q2 := p + slen + run.length + ((t.drop (p + slen + run.length)).takeWhile isJsWS).length
      if t.getD q2 ' ' = '=' then
        let q3 := q2 + 1 + ((t.drop (q2 + 1)).takeWhile isJsWS).length
        if t.getD q3 ' ' = dqChar || t.getD q3 ' ' = sqChar then some (q3 + 1)
        else none
      else none

/-- A match of `/(?:^|[>\s])(:|@|v-)[\w-]+\s*=\s*["']/` starting at index
`i`: at index 0 the `^` alternative is tried first. -/
def bindingMatchAt (t : LChar) (i : Nat) : Option Nat :=
  if i = 0 then
    match bindingCoreAt t 0 with
    | some e => some e
    | none =>
      if t.getD 0 ' ' = '>' || isJsWS (t.getD 0 ' ') then bindingCoreAt t 1 else none
  else if t.getD i ' ' = '>' || isJsWS (t.getD i ' ') then bindingCoreAt t (i + 1)
  else none

/-- The last match found by the `while (vueBindingRegex.exec(beforeText))`
loop (successive non-overlapping matches, left to right). -/
def lastBindingMatch (t : LChar) : Option (Nat × Nat) :=
  ((List.range t.length).foldl
    (fun st i =>
      if st.2 ≤ i then
        match bindingMatchAt t i with
        | some e => ((some (i, e), e) : Option (Nat × Nat) × Nat)
        | none => st
      else st)
    ((none : Option (Nat × Nat)), 0)).1

/-- The quote-pairing loop of `isInVueBindingExpression`: count closed
pairs of the opening-quote character between the attribute opening and the
text position, skipping characters preceded by a backslash. -/
def quoteCountZero (between : LChar) (opening : Char) : Bool :=
  (between.foldl
    (fun (st : Char × Bool × Bool × Nat) c =>
      let (prev, inS, inD, cnt) := st
      if prev = '\\' then (c, inS, inD, cnt)
      else if c = dqChar && !inS then
        let inD' := !inD
        (c, inS, inD', if !inD' && opening = dqChar then cnt + 1 else cnt)
      else if c = sqChar && !inD then
        let inS' := !inS
        (c, inS', inD, if !inS' && opening = sqChar then cnt + 1 else cnt)
      else (c, inS, inD, cnt))
    (' ', false, false, 0)).2.2.2 = 0

/-- `isInVueBindingExpression(templateContent, textIndex)` from the source. -/
def isInVueBindingExpression (t : LChar) (textIndex : Nat) : Bool :=
  let beforeText := t.take textIndex
  match lastBindingMatch beforeText with
  | none => false
  | some me =>
    let attrStartIndex := me.2 - 1
    let openingQuote := beforeText.getD attrStartIndex ' '
    let between := (t.drop (attrStartIndex + 1)).take (textIndex - (attrStartIndex + 1))
    if !between.any (fun c => c = openingQuote) then true
    else quoteCountZero between openingQuote

/-! ### Template Interpolation Converter: `convertTemplateToI18n` -/

/-- The variables captured by `/\$\{([^}]+)\}/g`, in order of appearance
(duplicates kept). -/
def scanDollarBraces (t : LChar) : List LChar :=
  ((List.range t.length).foldl
    (fun st i =>
      if st.2 ≤ i && t.getD i ' ' = '$' && t.getD (i + 1) ' ' = Char.ofNat 123 then
        let inner := (t.drop (i + 2)).takeWhile (fun c => !(c = Char.ofNat 125))
        if !inner.isEmpty && (t.drop (i + 2)).getD inner.length ' ' = Char.ofNat 125 then
          (st.1 ++ [inner], i + 2 + inner.length + 1)
        else st
      else st)
    (([] : List LChar), 0)).1

/-- The test `/\$\{.*?\}/` used by the callers to decide whether a content
is a template (note: unlike the capture regex, the lazy `.*?` may be empty
but may not span a newline). -/
def hasDollarBrace (t : LChar) : Bool :=
  (List.range t.length).any (fun i =>
    t.getD i ' ' = '$' && t.getD (i + 1) ' ' = Char.ofNat 123 &&
      (let rest := t.drop (i + 2)
       let seg := rest.takeWhile (fun c => !(c = Char.ofNat 125))
       !seg.any (fun c => c = '\n') && decide (seg.length < rest.length)))

/-- `String.fromCharCode(97 + index)`: `a`, `b`, `c`, … and, past index
25, the ASCII characters following `z`. -/
def placeholderChar (idx : Nat) : Char := Char.ofNat (97 + idx)

structure ConvResult where
  key : LChar
  converted : LChar
  replacedText : LChar
  mapping : List (LChar × LChar)
  deriving DecidableEq

/-- `convertTemplateToI18n(templateString, methodPrefix)` from the source,
with the mutation of `globalI18nMap` made explicit: for each captured
variable in order, all occurrences of its marker are replaced by the
placeholder of its index; the converted text is registered as both key and
value; the call expression carries the placeholder mapping when non-empty. -/
def convertTemplateToI18n (templateString methodName : LChar) (g : KeyMap) :
    ConvResult × KeyMap :=
  let varList := scanDollarBraces templateString
  let step := varList.enum.foldl
    (fun (st : LChar × List (LChar × LChar)) p =>
      let newVar := placeholderChar p.1
      (replaceAllSub st.1 ('$' :: Char.ofNat 123 :: p.2 ++ [Char.ofNat 125])
        [Char.ofNat 123, newVar, Char.ofNat 125],
       st.2 ++ [([newVar], p.2)]))
    (templateString, ([] : List (LChar × LChar)))
  let convertedText := step.1
  let g2 := setKV g convertedText convertedText
  let mappingString :=
    List.intercalate ", ".data (step.2.map (fun p => p.1 ++ ": ".data ++ p.2))
  let i18nCall :=
    if !mappingString.isEmpty then
      methodName ++ ('(' :: sqChar :: convertedText) ++ (sqChar :: ", ".data) ++
        (Char.ofNat 123 :: mappingString) ++ [Char.ofNat 125, ')']
    else
      methodName ++ ('(' :: sqChar :: convertedText) ++ [sqChar, ')']
  (⟨convertedText, i18nCall, convertedText, step.2⟩, g2)

/-! ### Rewrite engine -/

/-- Rewrite state threaded through one file's term loop: the buffer, the
key registry, the extracted-count, and the per-pass deduplication set. -/
structure RwState where
  content : LChar
  g : KeyMap
  count : Nat
  seen : List LChar
  deriving DecidableEq

/-- A match of `/(?:^|[>\s])([\w-]+)\s*=\s*$/` on the prefix before an
occurrence: returns the match length, the consumed `[>\s]` character (if
the match did not anchor at `^`), and the captured attribute name. -/
def attrPrefixMatch (before : LChar) : Option (Nat × Option Char × LChar) :=
  let rev := before.reverse
  let ws2 := rev.takeWhile isJsWS
  match rev.drop ws2.length with
  | '=' :: l2 =>
    let ws1 := l2.takeWhile isJsWS
    let l3 := l2.drop ws1.length
    let run := l3.takeWhile isWordDash
    if run.isEmpty then none
    else
      let base := ws2.length + 1 + ws1.length + run.length
      match (l3.drop run.length).head? with
      | none => some (base, none, run.reverse)
      | some c =>
        if c = '>' || isJsWS c then some (base + 1, some c, run.reverse)
        else none
  | _ => none

/-- A match of `/(?:^|[>\s])(?::|v-)[\w-]+\s*=\s*$/` on the prefix before
an occurrence.  The `[\w-]+` run is the maximal word-dash run before the
`=`; the `v-` alternative requires the run to begin with `v-` (its two
characters belong to `[\w-]`), the `:` alternative requires a colon just
before the run, and in both cases the character before the whole match (if
any) must be `>` or whitespace. -/
def vueBindingPrefixMatch (before : LChar) : Bool :=
  let rev := before.reverse
  match skipWsR rev with
  | '=' :: l2 =>
    let l3 := skipWsR l2
    let run := l3.takeWhile isWordDash
    let l4 := l3.drop run.length
    let boundaryOk := fun (l : LChar) =>
      match l.head? with
      | none => true
      | some c => c = '>' || isJsWS c
    (!run.isEmpty && l4.head? = some ':' && boundaryOk l4.tail) ||
      (decide (3 ≤ run.length) && leadsWith "-v".data (run.drop (run.length - 2)) &&
        boundaryOk l4)
  | _ => false

/-- The per-occurrence replacement of a quoted term in the Vue template
loop: plain attribute (bound, preserving the found separator character),
interpolation splice, binding-expression splice, or interpolation wrap. -/
def quoteOccReplace (method key : LChar) (origLen : Nat) (cur : LChar) (idx : Nat) : LChar :=
  let before := cur.take idx
  let after := cur.drop (idx + origLen)
  let orig := (cur.drop idx).take origLen
  let callTxt := method ++ ('(' :: sqChar :: key) ++ [sqChar, ')']
  let attrM := attrPrefixMatch before
  if attrM.isSome && !vueBindingPrefixMatch before then
    match attrM with
    | some (m0len, bchar, attrName) =>
      let leadingSpace : LChar :=
        match bchar with
        | some c => if c = '>' then [' '] else [c]
        | none => [' ']
      before.take (before.length - m0len) ++ leadingSpace ++ (':' :: attrName) ++
        ('=' :: dqChar :: callTxt) ++ [dqChar] ++ after
    | none => cur
  else if isInVueInterpolation (before ++ orig) (before.length + origLen - 1) then
    before ++ callTxt ++ after
  else if isInVueBindingExpression (before ++ orig) (before.length + origLen - 1) then
    before ++ callTxt ++ after
  else
    before ++ (Char.ofNat 123 :: Char.ofNat 123 :: ' ' :: callTxt) ++
      (' ' :: [Char.ofNat 125, Char.ofNat 125]) ++ after

/-- All occurrences of a quoted term are replaced back to front (the match
indices are collected up front against the current buffer, then each is
rewritten according to its own freshly computed context). -/
def processQuoteTerm (method key orig cur0 : LChar) : LChar :=
  (allOcc cur0 orig).foldr (fun idx cur => quoteOccReplace method key orig.length cur idx) cur0

def interpWrap (inner : LChar) : LChar :=
  Char.ofNat 123 :: Char.ofNat 123 :: ' ' :: inner ++ (' ' :: [Char.ofNat 125, Char.ofNat 125])

/-- One iteration of the term loop of the Vue template half of
`processVueFile` (deduplication by original span, vanished-span skip, then
the template-string and plain-text branches with their per-kind replacement
strategies). -/
def vueTplStep (method : LChar) (st : RwState) (term : CTerm) : RwState :=
  if st.seen.any (fun o => o = term.original) then st
  else
    let seen' := term.original :: st.seen
    if (firstIdx st.content term.original).isNone then
      { st with seen := seen' }
    else if hasDollarBrace term.content then
      let cg := convertTemplateToI18n term.content method st.g
      let g2 := setKV cg.2 cg.1.replacedText cg.1.replacedText
      let newContent :=
        if term.ttype = TermType.buttonText then
          replaceFirst st.content term.original
            ('<' :: term.tagName ++ term.attrs ++ ['>'] ++ interpWrap cg.1.converted ++
              ('<' :: '/' :: term.tagName) ++ ['>'])
        else
          let attrC := checkIfInAttribute st.content term.original
          if attrC.isAttribute then
            if attrC.needsBinding then
              replaceFirst st.content (attrC.attrName ++ '=' :: term.original)
                (' ' :: ':' :: attrC.attrName ++ ('=' :: dqChar :: cg.1.converted) ++ [dqChar])
            else replaceFirst st.content term.original cg.1.converted
          else
            match firstIdx st.content term.original with
            | some ti =>
              if isInVueInterpolation st.content ti then
                replaceFirst st.content term.original cg.1.converted
              else replaceFirst st.content term.original (interpWrap cg.1.converted)
            | none => replaceFirst st.content term.original (interpWrap cg.1.converted)
      { content := newContent, g := g2, count := st.count + 1, seen := seen' }
    else
      let key := generateI18nKey term.content
      let g1 := setKV st.g key term.content
      let callTxt := method ++ ('(' :: sqChar :: key) ++ [sqChar, ')']
      let newContent :=
        if term.ttype = TermType.tagContent then
          replaceAllSub st.content term.original ('>' :: interpWrap callTxt ++ ['<'])
        else if term.ttype = TermType.buttonText then
          replaceAllSub st.content term.original
            ('<' :: term.tagName ++ term.attrs ++ ['>'] ++ interpWrap callTxt ++
              ('<' :: '/' :: term.tagName) ++ ['>'])
        else if term.ttype = TermType.doubleQuote || term.ttype = TermType.singleQuote then
          processQuoteTerm method key term.original st.content
        else replaceFirst st.content term.original (interpWrap callTxt)
      { content := newContent, g := g1, count := st.count + 1, seen := seen' }

/-- The Vue template half of `processVueFile`: extract terms from the
comment-stripped template, then run the rewrite loop against the original
template text (returns the rewritten template, the updated registry, and
the extracted count). -/
def processVueTemplate (templateContent method : LChar) (g : KeyMap) :
    LChar × KeyMap × Nat :=
  let terms := extractChineseTerms (removeComments templateContent) Ctx.template
  let fin := terms.foldl (vueTplStep method) ⟨templateContent, g, 0, []⟩
  (fin.content, fin.g, fin.count)

/-! ### The TypeScript pipeline: `processTsFile` -/

/-- The consecutive `import.*?\n` lines of the `/^(\s*)(import.*?\n)*/m`
match (each line must literally begin with `import` and be terminated by a
newline); returns the total length consumed. -/
def importLinesLen : Nat → LChar → Nat
  | 0, _ => 0
  | f + 1, t =>
    if leadsWith "import".data t then
      let seg := t.takeWhile (fun c => !(c = '\n'))
      if decide (seg.length < t.length) then
        seg.length + 1 + importLinesLen f (t.drop (seg.length + 1))
      else 0
    else 0

/-- `/import.*i18n.*from/` (no flags: everything on one line). -/
def importI18nFromTest (t : LChar) : Bool :=
  (List.range t.length).any (fun i =>
    leadsWith "import".data (t.drop i) &&
      (let seg := (t.drop (i + 6)).takeWhile (fun c => !(c = '\n'))
       match firstIdx seg "i18n".data with
       | none => false
       | some j => hasSub (seg.drop (j + 4)) "from".data))

/-- One iteration of the term loop of `processTsFile` (deduplication by
content; template strings replaced once, plain text replaced globally; the
`i18n:` field kind keeps its `i18n: ` prefix in the replacement). -/
def tsTermStep (method : LChar) (st : RwState) (term : CTerm) : RwState :=
  if hasSub term.content "import".data then st
  else if st.seen.any (fun c => c = term.content) then st
  else
    let seen' := term.content :: st.seen
    if hasDollarBrace term.content then
      let cg := convertTemplateToI18n term.content method st.g
      let g2 := setKV cg.2 cg.1.replacedText cg.1.replacedText
      let repl :=
        if term.ttype = TermType.i18nField then "i18n: ".data ++ cg.1.converted
        else cg.1.converted
      { content := replaceFirst st.content term.original repl, g := g2,
        count := st.count + 1, seen := seen' }
    else
      let key := generateI18nKey term.content
      let g1 := setKV st.g key term.content
      let repl0 := method ++ ('(' :: sqChar :: key) ++ [sqChar, ')']
      let repl :=
        if term.ttype = TermType.i18nField then "i18n: ".data ++ repl0 else repl0
      { content := replaceAllSub st.content term.original repl, g := g1,
        count := st.count + 1, seen := seen' }

/-- `processTsFile` without its file I/O: strip comments, pre-check for
eligible terms (minus `import`-containing contents), insert the configured
statement after the leading import block unless an i18n import is already
present, then run the term loop.  Returns the rewritten content,
the extracted count and the updated registry. -/
def processTsContent (originalContent importStatement method : LChar) (g : KeyMap) :
    LChar × Nat × KeyMap :=
  let cleanContent := removeComments originalContent
  let termsPreCheck := extractChineseTerms cleanContent Ctx.script
  let validTerms := termsPreCheck.filter (fun t => !hasSub t.content "import".data)
  if validTerms.isEmpty then (originalContent, 0, g)
  else
    let modified0 :=
      if importI18nFromTest cleanContent then originalContent
      else
        let ws := originalContent.takeWhile isJsWS
        let rest := originalContent.drop ws.length
        let secLen := ws.length + importLinesLen rest.length rest
        originalContent.take secLen ++ importStatement ++ '\n' :: originalContent.drop secLen
    let terms := extractChineseTerms cleanContent Ctx.script
    let fin := terms.foldl (tsTermStep method) ⟨modified0, g, 0, []⟩
    (fin.content, fin.count, fin.g)

/-! ## Theorems about the Key Registry -/

theorem setKV_self (m : KeyMap) (k v : LChar) (h : getKV m k = some v) :
    setKV m k v = m := by
  induction m with
  | nil => simp [getKV] at h
  | cons p m ih =>
    obtain ⟨k', v'⟩ := p
    by_cases hk : k' = k
    · subst hk
      simp [getKV] at h
      simp [setKV, h]
    · rw [getKV] at h
      simp [hk] at h
      simp [setKV, hk, ih h]

theorem setKV_idem (m : KeyMap) (k v : LChar) :
    setKV (setKV m k v) k v = setKV m k v := by
  induction m with
  | nil => simp [setKV]
  | cons p m ih =>
    obtain ⟨k', v'⟩ := p
    by_cases hk : k' = k <;> simp [setKV, hk, ih]

/-- C9: Key Registry idempotence and commutativity.  Registering a
key/value pair that is already present with the same value leaves the
registry (`globalI18nMap[key] = value`, modelled by `setKV`) unchanged, and
registering the same key/value pair twice — as two different files of a
batch would, in either order — yields the same final registry as
registering it once. -/
theorem registry_register_idem (m : KeyMap) (k v : LChar) :
    (getKV m k = some v → setKV m k v = m) ∧
      setKV (setKV m k v) k v = setKV m k v :=
  ⟨setKV_self m k v, setKV_idem m k v⟩

/-- Witness for C9 at a concrete registry. -/
theorem registry_register_idem_witness :
    getKV [("共".data, "共".data)] "共".data = some "共".data ∧
      setKV [("共".data, "共".data)] "共".data "共".data = [("共".data, "共".data)] :=
  ⟨by decide,
    (registry_register_idem [("共".data, "共".data)] "共".data "共".data).1 (by decide)⟩

/-! ## Theorems about `replaceFirst` -/

/-- C10: `replaceFirst` semantics.  If the search string does not occur in
the text, the text is returned unchanged; otherwise the result is the
prefix before the leftmost occurrence, then the replacement, then the
suffix after that occurrence. -/
theorem replaceFirst_spec (text search repl : LChar) :
    ((∀ i, ¬ occursAt text search i) → replaceFirst text search repl = text) ∧
      (∀ i, occursAt text search i → (∀ j, j < i → ¬ occursAt text search j) →
        replaceFirst text search repl =
          text.take i ++ repl ++ text.drop (i + search.length)) := by
  constructor
  · intro hno
    unfold replaceFirst firstIdx
    cases hfi : firstIdxFrom text search 0 with
    | none => rfl
    | some m =>
      obtain ⟨-, hocc, -⟩ := firstIdxFrom_some hfi
      exact absurd hocc (hno (m - 0))
  · intro i hocc hmin
    unfold replaceFirst firstIdx
    cases hfi : firstIdxFrom text search 0 with
    | none => exact absurd hocc (firstIdxFrom_none hfi i)
    | some m =>
      obtain ⟨-, hocc', hmin'⟩ := firstIdxFrom_some hfi
      simp only [Nat.sub_zero] at hocc' hmin'
      have : m = i := by
        rcases Nat.lt_trichotomy m i with hlt | heq | hgt
        · exact absurd hocc' (hmin m hlt)
        · exact heq
        · exact absurd hocc (hmin' i hgt)
      subst this
      rfl

/-- Witness for C10 at a concrete occurrence. -/
theorem replaceFirst_spec_witness :
    occursAt "abcbc".data "bc".data 1 ∧
      (∀ j, j < 1 → ¬ occursAt "abcbc".data "bc".data j) ∧
      replaceFirst "abcbc".data "bc".data "X".data =
        "abcbc".data.take 1 ++ "X".data ++ "abcbc".data.drop (1 + "bc".data.length) :=
  ⟨by decide, by decide,
    (replaceFirst_spec "abcbc".data "bc".data "X".data).2 1 (by decide) (by decide)⟩

/-! ## Theorems about `removeComments` -/

theorem hasSub_cons_false {c : Char} {r s : LChar} (h : hasSub (c :: r) s = false) :
    leadsWith s (c :: r) = false ∧ hasSub r s = false := by
  rw [hasSub] at h
  simpa using h

theorem remLineF_id (f : Nat) (t : LChar) (hf : t.length ≤ f)
    (h : hasSub t "//".data = false) : remLineF f t = t := by
  induction f generalizing t with
  | zero =>
    cases t with
    | nil => rfl
    | cons c r => simp at hf
  | succ f ih =>
    cases t with
    | nil => rfl
    | cons c r =>
      obtain ⟨hl, hr⟩ := hasSub_cons_false h
      rw [remLineF]
      have hcond : (c = '/' && r.head? = some '/') = false := by
        cases r with
        | nil => simp
        | cons c2 r2 =>
          by_cases hc : c = '/'
          · by_cases hc2 : c2 = '/'
            · subst hc hc2
              simp [leadsWith] at hl
            · simp [hc2]
          · simp [hc]
      simp only [hcond, Bool.false_eq_true, if_false]
      rw [ih r (by simpa using Nat.le_of_succ_le_succ hf) hr]

theorem remBlockF_id (f : Nat) (t : LChar) (hf : t.length ≤ f)
    (h : hasSub t "/*".data = false) : remBlockF f t = t := by
  induction f generalizing t with
  | zero =>
    cases t with
    | nil => rfl
    | cons c r => simp at hf
  | succ f ih =>
    cases t with
    | nil => rfl
    | cons c r =>
      obtain ⟨hl, hr⟩ := hasSub_cons_false h
      rw [remBlockF]
      have hcond : (c = '/' && r.head? = some '*') = false := by
        cases r with
        | nil => simp
        | cons c2 r2 =>
          by_cases hc : c = '/'
          · by_cases hc2 : c2 = '*'
            · subst hc hc2
              simp [leadsWith] at hl
            · simp [hc2]
          · simp [hc]
      simp only [hcond, Bool.false_eq_true, if_false]
      rw [ih r (by simpa using Nat.le_of_succ_le_succ hf) hr]

theorem remHtmlF_id (f : Nat) (t : LChar) (hf : t.length ≤ f)
    (h : hasSub t "<!--".data = false) : remHtmlF f t = t := by
  induction f generalizing t with
  | zero =>
    cases t with
    | nil => rfl
    | cons c r => simp at hf
  | succ f ih =>
    cases t with
    | nil => rfl
    | cons c r =>
      obtain ⟨hl, hr⟩ := hasSub_cons_false h
      rw [remHtmlF]
      simp only [hl, Bool.false_eq_true, if_false]
      rw [ih r (by simpa using Nat.le_of_succ_le_succ hf) hr]

/-- Lines free of shell-style comments: no line of the text has `#` as its
first character other than spaces and tabs. -/
def hashFreeF : Nat → LChar → Bool
  | 0, _ => true
  | f + 1, t =>
    match t with
    | [] => true
    | _ :: _ =>
      !isHashLine (t.takeWhile (fun c => !(c = '\n'))) &&
        (match t.dropWhile (fun c => !(c = '\n')) with
         | [] => true
         | _ :: r2 => hashFreeF f r2)

theorem dropWhile_head_not (p : Char → Bool) (l : LChar) (c : Char)
    (h : (l.dropWhile p).head? = some c) : p c = false := by
  induction l with
  | nil => simp [List.dropWhile] at h
  | cons a r ih =>
    rw [List.dropWhile] at h
    by_cases ha : p a = true
    · simp [ha] at h
      exact ih h
    · simp [ha] at h
      obtain ⟨rfl⟩ := h
      simpa using ha

theorem remHashF_id (f : Nat) (t : LChar) (hf : t.length ≤ f)
    (h : hashFreeF f t = true) : remHashF f t = t := by
  induction f generalizing t with
  | zero =>
    cases t with
    | nil => rfl
    | cons c r => simp at hf
  | succ f ih =>
    cases t with
    | nil => rfl
    | cons c r =>
      rw [remHashF]
      rw [hashFreeF] at h
      simp only [Bool.and_eq_true, Bool.not_eq_true'] at h
      obtain ⟨hnh, hrest⟩ := h
      simp only [hnh, Bool.false_eq_true, if_false]
      cases hdw : (c :: r).dropWhile (fun c => !(c = '\n')) with
      | nil =>
        simp only [hdw]
        conv_rhs => rw [← List.takeWhile_append_dropWhile (p := fun c => !(c = '\n')) (l := c :: r)]
        rw [hdw, List.append_nil]
      | cons d r2 =>
        have hd : d = '\n' := by
          have := dropWhile_head_not (fun c => !(c = '\n')) (c :: r) d (by rw [hdw]; rfl)
          simpa using this
        subst hd
        rw [hdw] at hrest
        have hlen : r2.length ≤ f := by
          have h1 : ((c :: r).dropWhile (fun c => !(c = '\n'))).length ≤ (c :: r).length :=
            List.Sublist.length_le (List.dropWhile_sublist _)
          rw [hdw] at h1
          simp at h1 hf
          omega
        simp only [hdw]
        rw [ih r2 hlen hrest]
        conv_rhs => rw [← List.takeWhile_append_dropWhile (p := fun c => !(c = '\n')) (l := c :: r)]
        rw [hdw]

/-- Comment-opener freedom: the precondition under which `removeComments`
is the identity (no `//`, no `/*`, no `<!--`, and no line whose first
non-blank character is `#`). -/
def commentFree (t : LChar) : Bool :=
  !hasSub t "//".data && !hasSub t "/*".data && !hasSub t "<!--".data &&
    hashFreeF t.length t

/-- C6 amended: the normalizer `removeComments` is a pure total function
(never failing, on malformed delimiters included); it removes the four
comment forms textually and returns any comment-opener-free input
unchanged.  It does not, however, preserve every non-comment character (a
`//` inside a string literal is removed to the end of the line) nor the
line structure across comments (newlines inside a multi-line block or
markup comment are deleted with the comment). -/
theorem removeComments_id_of_commentFree (t : LChar) (h : commentFree t = true) :
    removeComments t = t := by
  unfold commentFree at h
  simp only [Bool.and_eq_true, Bool.not_eq_true'] at h
  obtain ⟨⟨⟨h1, h2⟩, h3⟩, h4⟩ := h
  unfold removeComments
  simp only [remLineF_id t.length t (le_refl _) h1]
  simp only [remBlockF_id t.length t (le_refl _) h2]
  simp only [remHtmlF_id t.length t (le_refl _) h3]
  simp only [remHashF_id t.length t (le_refl _) h4]

/-- Witness for the amended C6 on a concrete comment-free input. -/
theorem removeComments_id_of_commentFree_witness :
    commentFree "const a = 1;\n  查询 b\n".data = true ∧
      removeComments "const a = 1;\n  查询 b\n".data = "const a = 1;\n  查询 b\n".data :=
  ⟨by decide, removeComments_id_of_commentFree "const a = 1;\n  查询 b\n".data (by decide)⟩

/-- C6 counterexample: `removeComments` does not preserve the line
structure of its input — a block comment spanning two lines is deleted
together with its inner newline — and deletes non-comment characters — the
`//` inside the string literal `"http://x"` starts a line-comment match. -/
theorem removeComments_linestructure_counterexample :
    removeComments "/*a\nb*/".data = [] ∧
      lineCount "/*a\nb*/".data = 2 ∧
      lineCount (removeComments "/*a\nb*/".data) = 1 ∧
      removeComments "s = \"http://x\"".data = "s = \"http:".data := by decide

/-! ## Invariants of the Term Extractor

Each scanner pushes a term only behind its guard conjunction; the following
lemmas read the guards back off the filter functions, and combine into the
candidate-term invariant. -/

/-- The shared shape of the per-filter conclusions. -/
def TermProps (t : CTerm) : Prop :=
  t.content ≠ [] ∧ hasChinese t.content = true ∧ isFilePath t.content = false ∧
    (t.ttype ≠ TermType.template → isCodeLike t.content = false)

theorem dqTermOf_props {text : LChar} {ctx : Ctx} {m : Nat × LChar} {t : CTerm}
    (h : dqTermOf text ctx m = some t) : TermProps t := by
  unfold dqTermOf at h
  dsimp only at h
  split at h
  · exact absurd h (by simp)
  split at h
  · exact absurd h (by simp)
  split at h
  · exact absurd h (by simp)
  split at h
  case _ hc =>
    simp only [Bool.and_eq_true, Bool.not_eq_true'] at hc
    obtain ⟨⟨⟨⟨hne, hch⟩, hcl⟩, hfp⟩, -⟩ := hc
    obtain rfl := Option.some_inj.mp h
    exact ⟨by simpa using hne, hch, hfp, fun _ => hcl⟩
  · exact absurd h (by simp)

theorem fieldTermOf_props {text : LChar} {ctx : Ctx} {m : Nat × Nat × LChar} {t : CTerm}
    (h : fieldTermOf text ctx m = some t) : TermProps t := by
  unfold fieldTermOf at h
  dsimp only at h
  split at h
  · exact absurd h (by simp)
  split at h
  case _ hc =>
    simp only [Bool.and_eq_true, Bool.not_eq_true'] at hc
    obtain ⟨⟨⟨hne, hch⟩, hcl⟩, hfp⟩ := hc
    obtain rfl := Option.some_inj.mp h
    exact ⟨by simpa using hne, hch, hfp, fun _ => hcl⟩
  · exact absurd h (by simp)

theorem sqTermOf_props {text : LChar} {ctx : Ctx} {fc : List LChar} {m : Nat × LChar}
    {t : CTerm} (h : sqTermOf text ctx fc m = some t) : TermProps t := by
  unfold sqTermOf at h
  dsimp only at h
  split at h
  · exact absurd h (by simp)
  split at h
  · exact absurd h (by simp)
  split at h
  · exact absurd h (by simp)
  split at h
  case _ hc =>
    simp only [Bool.and_eq_true, Bool.not_eq_true'] at hc
    obtain ⟨⟨⟨⟨hne, hch⟩, hcl⟩, hfp⟩, -⟩ := hc
    obtain rfl := Option.some_inj.mp h
    exact ⟨by simpa using hne, hch, hfp, fun _ => hcl⟩
  · exact absurd h (by simp)

theorem tplTermOf_props {text : LChar} {ctx : Ctx} {m : Nat × LChar} {t : CTerm}
    (h : tplTermOf text ctx m = some t) : TermProps t := by
  unfold tplTermOf at h
  dsimp only at h
  split at h
  · exact absurd h (by simp)
  split at h
  case _ hc =>
    simp only [Bool.and_eq_true, Bool.not_eq_true'] at hc
    obtain ⟨⟨⟨hne, hch⟩, hfp⟩, -⟩ := hc
    obtain rfl := Option.some_inj.mp h
    exact ⟨by simpa using hne, hch, hfp, fun hne' => absurd rfl hne'⟩
  · exact absurd h (by simp)

theorem tagTermOf_props {text : LChar} {m : Nat × LChar} {t : CTerm}
    (h : tagTermOf text m = some t) : TermProps t := by
  unfold tagTermOf at h
  dsimp only at h
  split at h
  case _ hc =>
    simp only [Bool.and_eq_true, Bool.not_eq_true'] at hc
    obtain ⟨⟨⟨⟨⟨⟨⟨hne, hch⟩, -⟩, -⟩, -⟩, -⟩, hcl⟩, hfp⟩ := hc
    split at h
    · obtain rfl := Option.some_inj.mp h
      exact ⟨by simpa using hne, hch, hfp, fun _ => hcl⟩
    · exact absurd h (by simp)
  · exact absurd h (by simp)

theorem buttonTermOf_props {text : LChar} {m : Nat × LChar × LChar × LChar × Nat}
    {t : CTerm} (h : buttonTermOf text m = some t) : TermProps t := by
  unfold buttonTermOf at h
  dsimp only at h
  split at h
  case _ hc =>
    simp only [Bool.and_eq_true, Bool.not_eq_true'] at hc
    obtain ⟨⟨⟨⟨⟨hne, hch⟩, -⟩, -⟩, hcl⟩, hfp⟩ := hc
    split at h
    · obtain rfl := Option.some_inj.mp h
      exact ⟨by simpa using hne, hch, hfp, fun _ => hcl⟩
    · exact absurd h (by simp)
  · exact absurd h (by simp)

/-- Every term returned by `extractChineseTerms` satisfies the shared
guard conjunction of its scanner. -/
theorem extract_mem_props {text : LChar} {ctx : Ctx} {t : CTerm}
    (h : t ∈ extractChineseTerms text ctx) : TermProps t := by
  unfold extractChineseTerms at h
  simp only [List.mem_append] at h
  rcases h with ((((h | h) | h) | h) | h) | h
  · obtain ⟨m, -, hm⟩ := List.mem_filterMap.mp h
    exact dqTermOf_props hm
  · obtain ⟨m, -, hm⟩ := List.mem_filterMap.mp h
    exact fieldTermOf_props hm
  · obtain ⟨m, -, hm⟩ := List.mem_filterMap.mp h
    exact sqTermOf_props hm
  · obtain ⟨m, -, hm⟩ := List.mem_filterMap.mp h
    exact tplTermOf_props hm
  · by_cases hc : ctx = Ctx.template
    · simp only [hc, if_true] at h
      obtain ⟨m, -, hm⟩ := List.mem_filterMap.mp h
      exact tagTermOf_props hm
    · simp [hc] at h
  · by_cases hc : ctx = Ctx.template
    · simp only [hc, if_true] at h
      obtain ⟨m, -, hm⟩ := List.mem_filterMap.mp h
      exact buttonTermOf_props hm
    · simp [hc] at h

/-- C8: candidate-term invariant.  Every term returned by extraction, for
every input buffer and both contexts, has a non-empty (trimmed, by
construction) content containing at least one target-script (CJK)
character. -/
theorem extract_content_nonempty_chinese (text : LChar) (ctx : Ctx) (t : CTerm)
    (h : t ∈ extractChineseTerms text ctx) :
    t.content ≠ [] ∧ hasChinese t.content = true :=
  ⟨(extract_mem_props h).1, (extract_mem_props h).2.1⟩

/-- Witness for C8 on a concrete buffer. -/
theorem extract_content_nonempty_chinese_witness :
    (⟨dqChar :: "查询".data ++ [dqChar], "查询".data, TermType.doubleQuote, [], []⟩ : CTerm) ∈
        extractChineseTerms (dqChar :: "查询".data ++ [dqChar]) Ctx.template ∧
      ("查询".data ≠ [] ∧ hasChinese "查询".data = true) :=
  ⟨by decide,
    extract_content_nonempty_chinese (dqChar :: "查询".data ++ [dqChar]) Ctx.template
      ⟨dqChar :: "查询".data ++ [dqChar], "查询".data, TermType.doubleQuote, [], []⟩ (by decide)⟩

/-- C7 amended: contents classified as file paths are never returned by
any scanner, and contents classified as code-like are never returned by
the double-quote, `i18n:` field, single-quote, tag-content or button-text
scanners; the backtick/template scanner, however, does not apply the
code-like filter, so a backtick literal with code-like content can be
returned. -/
theorem extract_filepath_codelike_filter (text : LChar) (ctx : Ctx) (t : CTerm)
    (h : t ∈ extractChineseTerms text ctx) :
    isFilePath t.content = false ∧
      (t.ttype ≠ TermType.template → isCodeLike t.content = false) :=
  ⟨(extract_mem_props h).2.2.1, (extract_mem_props h).2.2.2⟩

/-- Witness for the amended C7 on a concrete buffer. -/
theorem extract_filepath_codelike_filter_witness :
    (⟨sqChar :: "保存".data ++ [sqChar], "保存".data, TermType.singleQuote, [], []⟩ : CTerm) ∈
        extractChineseTerms (sqChar :: "保存".data ++ [sqChar]) Ctx.template ∧
      (isFilePath "保存".data = false ∧
        ((TermType.singleQuote ≠ TermType.template → isCodeLike "保存".data = false))) :=
  ⟨by decide,
    extract_filepath_codelike_filter (sqChar :: "保存".data ++ [sqChar]) Ctx.template
      ⟨sqChar :: "保存".data ++ [sqChar], "保存".data, TermType.singleQuote, [], []⟩ (by decide)⟩

/-- C7 counterexample: the claim that a quoted literal with code-fragment
content is never returned fails for backtick literals — the template
scanner omits the `isCodeLike` filter, so the code-like content
`设置x = 1` of a backtick literal is extracted as a candidate. -/
theorem extract_codelike_template_counterexample :
    extractChineseTerms "const s = \x60设置x = 1\x60;".data Ctx.script =
        [⟨btChar :: "设置x = 1".data ++ [btChar], "设置x = 1".data, TermType.template, [], []⟩] ∧
      isCodeLike "设置x = 1".data = true := by decide

/-! ## Concrete pipeline theorems -/

set_option maxRecDepth 1000000

/-- C2: plain-attribute conversion.  For the template input
`<el-input placeholder="请输入">` the rewrite produces exactly
`<el-input :placeholder="$t('请输入')">` (with the pre-existing separator
space preserved and the key registered), and `checkIfInAttribute`
classifies the occurrence as a plain attribute with `needsBinding = true`
and name `placeholder` — the plain-attribute pattern takes precedence over
the bound-attribute pattern. -/
theorem plain_attribute_binding_example :
    processVueTemplate "<el-input placeholder=\"请输入\">".data "$t".data [] =
        ("<el-input :placeholder=\"$t(\x27请输入\x27)\">".data,
          [("请输入".data, "请输入".data)], 1) ∧
      checkIfInAttribute "<el-input placeholder=\"请输入\">".data
          (dqChar :: "请输入".data ++ [dqChar]) =
        ⟨true, true, "placeholder".data⟩ := by decide

/-- C3: template canonicalization example.  Converting `` `共${count}条记录` ``
produces the canonical key `共{a}条记录`, the call
`$t('共{a}条记录', {a: count})` whose second argument maps placeholder `a`
to the expression `count`, and — starting from an empty registry — exactly
the registry entry mapping `共{a}条记录` to itself. -/
theorem convert_template_example :
    convertTemplateToI18n "共$\x7bcount\x7d条记录".data "$t".data [] =
      (⟨"共\x7ba\x7d条记录".data,
        "$t(\x27共\x7ba\x7d条记录\x27, \x7ba: count\x7d)".data,
        "共\x7ba\x7d条记录".data,
        [("a".data, "count".data)]⟩,
       [("共\x7ba\x7d条记录".data, "共\x7ba\x7d条记录".data)]) := by decide

/-- C4 counterexample: placeholder assignment is not a per-occurrence
left-to-right substitution.  For `` `你${x}好${x}` `` the second occurrence
of the marker `${x}` appears in the canonical key as the FIRST letter `a`
(the key is `你{a}好{a}`), not as its own letter `b` as the claim's
i-th-occurrence/i-th-letter rule predicts. -/
theorem convert_repeated_marker_counterexample :
    (convertTemplateToI18n "你$\x7bx\x7d好$\x7bx\x7d".data "$t".data []).1.key =
        "你\x7ba\x7d好\x7ba\x7d".data ∧
      "你\x7ba\x7d好\x7ba\x7d".data ≠ "你\x7ba\x7d好\x7bb\x7d".data := by decide

/-- C4 amended: placeholder letters are assigned to marker occurrences in
left-to-right order and recorded in the mapping — a repeated identical
expression still consumes a new letter there — but every occurrence of a
given expression text is replaced by the placeholder of that expression's
first occurrence (the per-variable replacement is global).  Hence for
distinct expressions the i-th marker shows the i-th letter, while for a
repeated expression the later occurrences show the earlier letter and the
extra letters are registered in the mapping but absent from the key. -/
theorem convert_repeated_marker_first_letter :
    (convertTemplateToI18n "你$\x7bx\x7d好$\x7bx\x7d".data "$t".data []).1.mapping =
        [("a".data, "x".data), ("b".data, "x".data)] ∧
      (convertTemplateToI18n "你$\x7bx\x7d好$\x7bx\x7d".data "$t".data []).1.key =
        "你\x7ba\x7d好\x7ba\x7d".data ∧
      (convertTemplateToI18n "共$\x7bm\x7d条$\x7bn\x7d页".data "$t".data []).1.key =
        "共\x7ba\x7d条\x7bb\x7d页".data := by decide

/-- A template with 27 distinct interpolation markers `${v0}` … `${v26}`. -/
def overflowTemplate : LChar :=
  (List.range 27).foldr
    (fun i acc => ('$' :: Char.ofNat 123 :: 'v' :: (toString i).data ++ [Char.ofNat 125]) ++ acc)
    []

/-- C5 counterexample: with more than 26 distinct markers the converter
does not raise any error — `convertTemplateToI18n` is total and simply
assigns `String.fromCharCode(97 + 26) = '{'` to the 27th marker, an
out-of-alphabet placeholder name. -/
theorem convert_overflow_no_error_counterexample :
    (convertTemplateToI18n overflowTemplate "$t".data []).1.mapping.length = 27 ∧
      ((convertTemplateToI18n overflowTemplate "$t".data []).1.mapping.getD 26 ([], [])).1 =
        [Char.ofNat 123] := by decide

/-- C5 amended: beyond 26 distinct markers the converter raises no error;
the i-th marker receives the character of code 97 + i, so markers past the
26th receive the ASCII characters following `z` (the 27th gets `{`), and
the produced canonical key contains the corrupted placeholder text `{{}`. -/
theorem convert_overflow_out_of_alphabet :
    (convertTemplateToI18n overflowTemplate "$t".data []).1.mapping.map Prod.fst =
        (List.range 27).map (fun i => [placeholderChar i]) ∧
      placeholderChar 26 = Char.ofNat 123 ∧
      hasSub (convertTemplateToI18n overflowTemplate "$t".data []).1.key
        [Char.ofNat 123, Char.ofNat 123, Char.ofNat 125] = true := by decide

/-- A TypeScript buffer containing the same text in both quote styles
(its import line makes `hasI18nImport` true, so no import is inserted). -/
def dedupInput : LChar := "import \x7b i18n \x7d from \x27x\x27;\nconst a = \"你好\";\nconst b = \x27你好\x27;\n".data

/-- The default `typescript.importStatement` of the configuration. -/
def tsImportStatement : LChar := "import \x7b i18n \x7d from \x27@mgec/template/i18n/index.ts\x27;".data

/-- The rewritten buffer: the double-quoted occurrence is wrapped, the
single-quoted occurrence — skipped by the content-keyed deduplication —
survives verbatim. -/
def dedupOutput : LChar := "import \x7b i18n \x7d from \x27x\x27;\nconst a = i18n.global.t(\x27你好\x27);\nconst b = \x27你好\x27;\n".data

/-- C1 counterexample: the rewrite pipeline is not idempotent — running
term extraction on the output of a completed TypeScript rewrite pass over
`dedupInput` yields a non-empty list of eligible candidate terms. -/
theorem rewrite_not_idempotent_counterexample :
    extractChineseTerms
        (processTsContent dedupInput tsImportStatement "i18n.global.t".data []).1
        Ctx.script ≠ [] := by decide

/-- C1 amended: every call site introduced by the rewrite is classified as
already-localized — re-extraction finds no candidate at the introduced
`i18n.global.t('你好')` call — but extraction on the output of a completed
pass need not be empty: the first pass extracts the text in both quote
styles, the content-keyed deduplication rewrites only the double-quoted
occurrence, and the surviving single-quoted occurrence is extracted
again. -/
theorem rewrite_residual_term_dedup :
    (processTsContent dedupInput tsImportStatement "i18n.global.t".data []) =
        (dedupOutput, 1, [("你好".data, "你好".data)]) ∧
      extractChineseTerms dedupInput Ctx.script =
        [⟨dqChar :: "你好".data ++ [dqChar], "你好".data, TermType.doubleQuote, [], []⟩,
         ⟨sqChar :: "你好".data ++ [sqChar], "你好".data, TermType.singleQuote, [], []⟩] ∧
      extractChineseTerms dedupOutput Ctx.script =
        [⟨sqChar :: "你好".data ++ [sqChar], "你好".data, TermType.singleQuote, [], []⟩] := by decide

end I18n
